import Mathlib

set_option maxHeartbeats 1000000

/-!
Verification of the mongo-firestore convenience layer.

The repository holds two versions of the module: the packaged one
(`src/mongo.py`, imported by `src/test.py`) and a top-level legacy one
(`mongo.py`). The expression compiler `parse` and the change dispatcher
`_thread_change` are textually identical in both; the query-builder and
document-reference classes differ only in whether `order_by` and `limit`
return `self`, which is modelled in the two namespaces `Mongo` and
`Legacy` below.

Python values flowing through the compiler are embedded as the inductive
type `Value`: strings, integers, lists, and dicts as ordered association
lists (Python dicts preserve insertion order). CPython raises `TypeError`
when a dict display uses an unhashable key (a list or a dict), so dict
construction with a non-literal key, and hence `parse` itself, is embedded
in `Except String`.

The Python `match` statement tries its `case` arms top to bottom. The
embedding of `parse` makes that first-match order explicit: `parseCase2`
is the source's `case ["not", e]` arm, `parseCase3` the eight three-element
comparison arms, `parseCaseComb` the n-ary `and`/`nor`/`or` arms followed
by the `case _` pass-through. Each helper falls through to the next in
the source's order.
-/

/-- Embedding of the Python values the library manipulates: strings,
integers, lists, and dicts as ordered association lists. -/
inductive Value where
  | str : String → Value
  | int : Int → Value
  | list : List Value → Value
  | dict : List (Value × Value) → Value

/-- Python hashability for the embedded values: strings and integers are
hashable, lists and dicts are not. -/
def hashable : Value → Bool
  | .str _ => true
  | .int _ => true
  | .list _ => false
  | .dict _ => false

/-- A Python dict display with a single entry: evaluating it raises
`TypeError` when the key is unhashable. -/
def mkDict1 (k v : Value) : Except String Value :=
  if hashable k then .ok (.dict [(k, v)]) else .error "TypeError: unhashable type"

/-- The query tag of each non-equality comparison operator token, in the
source's order of `case` arms (`!=` to `not-in`). `none` for a string that
is not a comparison operator token. -/
def cmpTag (m : String) : Option String :=
  if m = "!=" then some "$ne"
  else if m = "<" then some "$lt"
  else if m = ">" then some "$gt"
  else if m = "<=" then some "$lte"
  else if m = ">=" then some "$gte"
  else if m = "in" then some "$in"
  else if m = "not-in" then some "$nin"
  else none

/-- The query tag of each n-ary combinator token, in the source's order of
`case` arms (`and`, `nor`, `or`). -/
def combTag (s : String) : Option String :=
  if s = "and" then some "$and"
  else if s = "nor" then some "$nor"
  else if s = "or" then some "$or"
  else none

mutual

/-- Embedding of `parse` from `mongo.py` (textually identical in both
versions of the module): recursive shape dispatch over the nested-list
expression grammar. Only list values can match a `case` pattern of the
source (Python sequence patterns do not match strings or dicts); every
other value falls to `case _` and is returned unchanged. -/
def parse : Value → Except String Value
  | .str s => .ok (.str s)
  | .int n => .ok (.int n)
  | .dict d => .ok (.dict d)
  | .list l => parseCase2 l
termination_by v => (sizeOf v, 3)

/-- The source's `case ["not", e]` arm: a two-element list whose first
element is the string `not` compiles to a wrapped negation; everything
else falls through to the three-element comparison arms. -/
def parseCase2 : List Value → Except String Value
  | [.str s, e] =>
      if s = "not" then (parse e).bind fun p => .ok (.dict [(.str "$not", p)])
      else parseCase3 [.str s, e]
  | l => parseCase3 l
termination_by l => (sizeOf l, 2)

/-- The source's eight `case [e1, op, e2]` arms: a three-element list whose
middle element is a comparison operator token compiles to a single-field
filter document; `==` emits the bare compiled value, every other operator
wraps it under its query tag. The value is compiled (and any exception in
it raised) before the field is hashed, as in CPython. Everything else
falls through to the combinator arms. -/
def parseCase3 : List Value → Except String Value
  | [e1, .str m, e2] =>
      if m = "==" then (parse e2).bind fun p => mkDict1 e1 p
      else
        match cmpTag m with
        | some tag => (parse e2).bind fun p => mkDict1 e1 (.dict [(.str tag, p)])
        | none => parseCaseComb [e1, .str m, e2]
  | l => parseCaseComb l
termination_by l => (sizeOf l, 1)

/-- The source's `case ["and", *expr]`, `case ["nor", *expr]` and
`case ["or", *expr]` arms, followed by the `case _` pass-through: a list
headed by a combinator token compiles each remaining element; any other
list is returned unchanged. -/
def parseCaseComb : List Value → Except String Value
  | .str s :: expr =>
      match combTag s with
      | some tag => (parseList expr).bind fun ps => .ok (.dict [(.str tag, .list ps)])
      | none => .ok (.list (.str s :: expr))
  | l => .ok (.list l)
termination_by l => (sizeOf l, 0)

/-- Embedding of the list comprehension `[parse(e) for e in expr]`:
left to right, the first exception propagating. -/
def parseList : List Value → Except String (List Value)
  | [] => .ok []
  | e :: es => (parse e).bind fun p => (parseList es).bind fun ps => .ok (p :: ps)
termination_by l => (sizeOf l, 3)

end

/-- Does a value match the source's `case ["not", e]` pattern head, i.e.
is it the string `not`? -/
def isNotTok : Value → Bool
  | .str s => s == "not"
  | _ => false

/-- Is a value one of the eight comparison operator token strings? -/
def isCmpToken : Value → Bool
  | .str m => m == "==" || m == "!=" || m == "<" || m == ">" || m == "<="
      || m == ">=" || m == "in" || m == "not-in"
  | _ => false

/-- Is a value one of the three combinator token strings `and`, `nor`,
`or`? -/
def isCombHead : Value → Bool
  | .str s => s == "and" || s == "nor" || s == "or"
  | _ => false

/-- Does a value match some non-catch-all `case` arm of `parse`: a
two-element list headed by `not`, a three-element list with a comparison
operator token in the middle, or a list headed by a combinator token? -/
def matchesRule (x : Value) : Bool :=
  match x with
  | .list l =>
      (match l with | [a, _] => isNotTok a | _ => false)
      || (match l with | [_, m, _] => isCmpToken m | _ => false)
      || (match l with | h :: _ => isCombHead h | [] => false)
  | _ => false

/-! Unfolding lemmas for the fall-through structure of `parse`: each one
records that a list shape not matched by an arm reaches the next arm. -/

theorem parseCase2_nil : parseCase2 [] = parseCase3 [] := by
  rw [parseCase2.eq_def]

theorem parseCase2_one (a : Value) : parseCase2 [a] = parseCase3 [a] := by
  rw [parseCase2.eq_def]
  rcases a with s | n | l | d <;> rfl

theorem parseCase2_two_of_ne (a e : Value) (h : isNotTok a = false) :
    parseCase2 [a, e] = parseCase3 [a, e] := by
  rw [parseCase2.eq_def]
  rcases a with s | n | l | d <;> simp_all [isNotTok]

theorem parseCase2_ge3 (a b c : Value) (r : List Value) :
    parseCase2 (a :: b :: c :: r) = parseCase3 (a :: b :: c :: r) := by
  rw [parseCase2.eq_def]
  rcases a with s | n | l | d <;> rfl

theorem parseCase3_nil : parseCase3 [] = parseCaseComb [] := by
  rw [parseCase3.eq_def]

theorem parseCase3_one (a : Value) : parseCase3 [a] = parseCaseComb [a] := by
  rw [parseCase3.eq_def]

theorem parseCase3_two (a b : Value) : parseCase3 [a, b] = parseCaseComb [a, b] := by
  rw [parseCase3.eq_def]
  rcases b with s | n | l | d <;> rfl

theorem parseCase3_ge4 (a b c d : Value) (r : List Value) :
    parseCase3 (a :: b :: c :: d :: r) = parseCaseComb (a :: b :: c :: d :: r) := by
  rw [parseCase3.eq_def]
  rcases b with s | n | l | d <;> rfl

theorem parseCase3_mid_nonstr (a b c : Value) (h : ∀ s, b ≠ .str s) :
    parseCase3 [a, b, c] = parseCaseComb [a, b, c] := by
  rw [parseCase3.eq_def]
  rcases b with s | n | l | d
  · exact absurd rfl (h s)
  · rfl
  · rfl
  · rfl

theorem parseCase3_mid_nonop (a c : Value) (m : String)
    (h : isCmpToken (.str m) = false) :
    parseCase3 [a, .str m, c] = parseCaseComb [a, .str m, c] := by
  simp only [isCmpToken, Bool.or_eq_false_iff, beq_eq_false_iff_ne, ne_eq] at h
  obtain ⟨⟨⟨⟨⟨⟨⟨h1, h2⟩, h3⟩, h4⟩, h5⟩, h6⟩, h7⟩, h8⟩ := h
  rw [parseCase3.eq_def]
  simp [cmpTag, h1, h2, h3, h4, h5, h6, h7, h8]

theorem parseCaseComb_nonstr (a : Value) (r : List Value) (h : ∀ s, a ≠ .str s) :
    parseCaseComb (a :: r) = .ok (.list (a :: r)) := by
  rw [parseCaseComb.eq_def]
  rcases a with s | n | l | d
  · exact absurd rfl (h s)
  · rfl
  · rfl
  · rfl

theorem parseCaseComb_noncomb (s : String) (r : List Value)
    (h : isCombHead (.str s) = false) :
    parseCaseComb (.str s :: r) = .ok (.list (.str s :: r)) := by
  simp only [isCombHead, Bool.or_eq_false_iff, beq_eq_false_iff_ne, ne_eq] at h
  obtain ⟨⟨h1, h2⟩, h3⟩ := h
  rw [parseCaseComb.eq_def]
  simp [combTag, h1, h2, h3]

theorem parseCaseComb_empty : parseCaseComb [] = .ok (.list []) := by
  rw [parseCaseComb.eq_def]

theorem parseCase3_three_nomid (a b c : Value) (h : isCmpToken b = false) :
    parseCase3 [a, b, c] = parseCaseComb [a, b, c] := by
  rcases b with s | n | ll | dd
  · exact parseCase3_mid_nonop a c s h
  · exact parseCase3_mid_nonstr _ _ _ (fun s hs => Value.noConfusion hs)
  · exact parseCase3_mid_nonstr _ _ _ (fun s hs => Value.noConfusion hs)
  · exact parseCase3_mid_nonstr _ _ _ (fun s hs => Value.noConfusion hs)

theorem parseCaseComb_of_nohead (l : List Value)
    (h : (match l with | h :: _ => isCombHead h | [] => false) = false) :
    parseCaseComb l = .ok (.list l) := by
  rcases l with _ | ⟨a, r⟩
  · exact parseCaseComb_empty
  · rcases a with s | n | ll | dd
    · exact parseCaseComb_noncomb s r (by simpa using h)
    · exact parseCaseComb_nonstr _ _ (fun s hs => Value.noConfusion hs)
    · exact parseCaseComb_nonstr _ _ (fun s hs => Value.noConfusion hs)
    · exact parseCaseComb_nonstr _ _ (fun s hs => Value.noConfusion hs)

/-- The non-equality comparison operator tokens paired with their query
tags, in the source's order of `case` arms. -/
def opTagPairs : List (String × String) :=
  [("!=", "$ne"), ("<", "$lt"), (">", "$gt"), ("<=", "$lte"),
   (">=", "$gte"), ("in", "$in"), ("not-in", "$nin")]

/-- The combinator tokens paired with their query tags, in the source's
order of `case` arms. -/
def combTagPairs : List (String × String) :=
  [("and", "$and"), ("nor", "$nor"), ("or", "$or")]

/-- Claim C1: for every comparison expression `[f, op, v]` with a hashable
field and a successfully compiled value, `parse` produces
`{f: {opTag: compile(v)}}`, except `==`, which produces `{f: compile(v)}`
with no operator wrapper. -/
theorem comparison_compiles_to_tagged_filter
    (f v w : Value) (hf : hashable f = true) (hv : parse v = .ok w) :
    parse (.list [f, .str "==", v]) = .ok (.dict [(f, w)]) ∧
    ∀ op tag : String, (op, tag) ∈ opTagPairs →
      parse (.list [f, .str op, v]) = .ok (.dict [(f, .dict [(.str tag, w)])]) := by
  constructor
  · simp only [parse]
    rw [parseCase2_ge3, parseCase3.eq_def]
    simp [hv, mkDict1, hf, Except.bind]
  · intro op tag hop
    simp only [opTagPairs, List.mem_cons, List.mem_singleton, Prod.mk.injEq,
      List.not_mem_nil, or_false] at hop
    rcases hop with ⟨rfl, rfl⟩ | ⟨rfl, rfl⟩ | ⟨rfl, rfl⟩ | ⟨rfl, rfl⟩ |
      ⟨rfl, rfl⟩ | ⟨rfl, rfl⟩ | ⟨rfl, rfl⟩ <;>
    · simp only [parse]
      rw [parseCase2_ge3, parseCase3.eq_def]
      simp [cmpTag, hv, mkDict1, hf, Except.bind]

/-- Witness for C1 at the spec's own examples: `["age", ">=", 18]` and
`["age", "==", 18]`. -/
theorem comparison_compiles_to_tagged_filter_witness :
    parse (.list [.str "age", .str ">=", .int 18])
      = .ok (.dict [(.str "age", .dict [(.str "$gte", .int 18)])]) ∧
    parse (.list [.str "age", .str "==", .int 18])
      = .ok (.dict [(.str "age", .int 18)]) := by
  have h := comparison_compiles_to_tagged_filter (.str "age") (.int 18) (.int 18)
    rfl (by simp [parse])
  exact ⟨h.2 ">=" "$gte" (by simp [opTagPairs]), h.1⟩

/-- Claim C2 counterexample: `["and", "==", 5]` is a three-element list
headed by a combinator token, but the comparison arm fires first, so the
compiler emits `{"and": 5}` rather than the combinator document
`{"$and": ["==", 5]}` the claim predicts. -/
theorem combinator_shadowed_by_comparison_counterexample :
    parse (.list [.str "and", .str "==", .int 5])
      = .ok (.dict [(.str "and", .int 5)]) ∧
    parse (.list [.str "and", .str "==", .int 5])
      ≠ .ok (.dict [(.str "$and", .list [.str "==", .int 5])]) := by
  have h : parse (.list [.str "and", .str "==", .int 5])
      = .ok (.dict [(.str "and", .int 5)]) := by
    simp only [parse]
    rw [parseCase2_ge3, parseCase3.eq_def]
    simp [parse, mkDict1, hashable, Except.bind]
  refine ⟨h, ?_⟩
  rw [h]
  intro hc
  simp only [Except.ok.injEq, Value.dict.injEq, List.cons.injEq, Prod.mk.injEq,
    Value.str.injEq] at hc
  exact absurd hc.1.1 (by decide)

/-- Claim C2 as amended: for every combinator token `c` and expression
list `E`, `parse` produces `{cTag: [parse(e) for e in E]}`, unless `E` has
exactly two elements and its first element is a comparison operator token,
in which case the whole three-element list is read as a comparison, which
fires first. -/
theorem nary_combinator_compiles
    (c tag : String) (hc : (c, tag) ∈ combTagPairs)
    (E ws : List Value) (hE : parseList E = .ok ws)
    (hshape : ∀ e1 e2, E = [e1, e2] → isCmpToken e1 = false) :
    parse (.list (.str c :: E)) = .ok (.dict [(.str tag, .list ws)]) := by
  have hct : combTag c = some tag ∧ c ≠ "not" := by
    simp only [combTagPairs, List.mem_cons, List.mem_singleton, Prod.mk.injEq,
      List.not_mem_nil, or_false] at hc
    rcases hc with ⟨rfl, rfl⟩ | ⟨rfl, rfl⟩ | ⟨rfl, rfl⟩ <;> exact ⟨rfl, by decide⟩
  rcases E with _ | ⟨e1, _ | ⟨e2, _ | ⟨e3, r⟩⟩⟩
  · simp only [parseList] at hE
    obtain rfl : ws = [] := by injection hE with h; exact h.symm
    simp only [parse]
    rw [parseCase2_one, parseCase3_one, parseCaseComb.eq_def]
    simp [hct.1, parseList, Except.bind]
  · simp only [parse]
    rw [parseCase2_two_of_ne _ _ (by simp [isNotTok, hct.2]), parseCase3_two,
      parseCaseComb.eq_def]
    simp [hct.1, hE, Except.bind]
  · simp only [parse]
    rw [parseCase2_ge3, parseCase3_three_nomid _ _ _ (hshape e1 e2 rfl),
      parseCaseComb.eq_def]
    simp [hct.1, hE, Except.bind]
  · simp only [parse]
    rw [parseCase2_ge3, parseCase3_ge4, parseCaseComb.eq_def]
    simp [hct.1, hE, Except.bind]

/-- Witness for the amended C2 at the spec's example
`["and", ["age", ">", 18], ["name", "==", "Bob"]]`. -/
theorem nary_combinator_compiles_witness :
    parse (.list [.str "and", .list [.str "age", .str ">", .int 18],
        .list [.str "name", .str "==", .str "Bob"]])
      = .ok (.dict [(.str "$and", .list
          [.dict [(.str "age", .dict [(.str "$gt", .int 18)])],
           .dict [(.str "name", .str "Bob")]])]) := by
  refine nary_combinator_compiles "and" "$and" (by simp [combTagPairs]) _ _ ?_ ?_
  · simp only [parseList, parse]
    rw [parseCase2_ge3, parseCase3.eq_def, parseCase2_ge3, parseCase3.eq_def]
    simp [cmpTag, parse, mkDict1, hashable, Except.bind]
  · intro e1 e2 h
    simp only [List.cons.injEq, and_true] at h
    rw [← h.1]
    rfl

/-- Claim C3 counterexample: on `[[], "==", 5]` the comparison arm matches
with the empty list as field, and the dict display `{e1: parse(e2)}`
raises `TypeError` because a list is unhashable, so the compiler is not
exception-free. -/
theorem unhashable_field_raises_counterexample :
    parse (.list [.list [], .str "==", .int 5])
      = .error "TypeError: unhashable type" := by
  simp only [parse]
  rw [parseCase2_ge3, parseCase3.eq_def]
  simp [parse, mkDict1, hashable, Except.bind]

/-- Claim C3 as amended: every input that matches no grammar rule is
returned unchanged, with no exception; the exception-freedom claimed for
all inputs fails only on matched comparisons whose field position is
unhashable (see the counterexample). -/
theorem unmatched_shapes_are_fixed_points
    (x : Value) (h : matchesRule x = false) : parse x = .ok x := by
  rcases x with s | n | l | d
  · simp [parse]
  · simp [parse]
  · simp only [matchesRule, Bool.or_eq_false_iff] at h
    obtain ⟨⟨h1, h2⟩, h3⟩ := h
    rcases l with _ | ⟨a, _ | ⟨b, _ | ⟨c, _ | ⟨e, r⟩⟩⟩⟩
    · simp only [parse]
      rw [parseCase2_nil, parseCase3_nil, parseCaseComb_empty]
    · simp only [parse]
      rw [parseCase2_one, parseCase3_one, parseCaseComb_of_nohead _ h3]
    · simp only [parse]
      rw [parseCase2_two_of_ne _ _ (by simpa using h1), parseCase3_two,
        parseCaseComb_of_nohead _ h3]
    · simp only [parse]
      rw [parseCase2_ge3, parseCase3_three_nomid _ _ _ (by simpa using h2),
        parseCaseComb_of_nohead _ h3]
    · simp only [parse]
      rw [parseCase2_ge3, parseCase3_ge4, parseCaseComb_of_nohead _ h3]
  · simp [parse]

/-- Witness for the amended C3 at a four-element list matching no rule. -/
theorem unmatched_shapes_are_fixed_points_witness :
    matchesRule (.list [.str "foo", .int 1, .int 2, .int 3]) = false ∧
    parse (.list [.str "foo", .int 1, .int 2, .int 3])
      = .ok (.list [.str "foo", .int 1, .int 2, .int 3]) :=
  ⟨rfl, unmatched_shapes_are_fixed_points _ rfl⟩

/-- Claim C8 counterexample: in `["f", "==", ["a", "<", 5]]` the value is
itself a grammar-shaped list, and the compiler recursively compiles it to
`{"a": {"$lt": 5}}` rather than passing it through as a literal as the
claim states. -/
theorem comparison_value_compiled_counterexample :
    parse (.list [.str "f", .str "==", .list [.str "a", .str "<", .int 5]])
      = .ok (.dict [(.str "f", .dict [(.str "a", .dict [(.str "$lt", .int 5)])])]) ∧
    parse (.list [.str "f", .str "==", .list [.str "a", .str "<", .int 5]])
      ≠ .ok (.dict [(.str "f", .list [.str "a", .str "<", .int 5])]) := by
  have h : parse (.list [.str "f", .str "==", .list [.str "a", .str "<", .int 5]])
      = .ok (.dict [(.str "f", .dict [(.str "a", .dict [(.str "$lt", .int 5)])])]) := by
    simp only [parse]
    rw [parseCase2_ge3, parseCase3.eq_def]
    simp only [parse]
    rw [parseCase2_ge3, parseCase3.eq_def]
    simp [cmpTag, parse, mkDict1, hashable, Except.bind]
  refine ⟨h, ?_⟩
  rw [h]
  intro hc
  simp at hc

/-- Claim C8 as amended: the value of a comparison is compiled through the
same recursive entry point as any sub-expression — `{f: compile(v)}` for
`==` — and the operand of `not` is compiled the same way; values are not
passed through as uncompiled literals. -/
theorem comparison_value_recursively_compiled
    (f v w : Value) (hf : hashable f = true) (hv : parse v = .ok w) :
    parse (.list [f, .str "==", v]) = .ok (.dict [(f, w)]) ∧
    parse (.list [.str "not", v]) = .ok (.dict [(.str "$not", w)]) := by
  constructor
  · simp only [parse]
    rw [parseCase2_ge3, parseCase3.eq_def]
    simp [hv, mkDict1, hf, Except.bind]
  · simp only [parse]
    rw [parseCase2.eq_def]
    simp [hv, Except.bind]

/-- Witness for the amended C8 at a grammar-shaped comparison value. -/
theorem comparison_value_recursively_compiled_witness :
    parse (.list [.str "f", .str "==", .list [.str "a", .str "<", .int 5]])
      = .ok (.dict [(.str "f", .dict [(.str "a", .dict [(.str "$lt", .int 5)])])]) := by
  refine (comparison_value_recursively_compiled (.str "f")
    (.list [.str "a", .str "<", .int 5])
    (.dict [(.str "a", .dict [(.str "$lt", .int 5)])]) rfl ?_).1
  simp only [parse]
  rw [parseCase2_ge3, parseCase3.eq_def]
  simp [cmpTag, parse, mkDict1, hashable, Except.bind]

/-! The change dispatcher. `_thread_change` iterates the change stream and
dispatches on the callback's declared parameter count once per event; the
embedding records, per run, which events were pulled from the stream,
which callback invocations were made, and whether an exception was
raised (terminating the background thread). -/

/-- A raw change-stream event, as the Python dict yielded by the driver:
string keys to values, in order. -/
abbrev RawEvent := List (String × Value)

/-- Python `change.get(k)` on the event dict: the first binding of `k`,
if any. -/
def dGet (d : RawEvent) (k : String) : Option Value :=
  (d.find? fun kv => kv.1 == k).map (·.2)

/-- The change-event normalizer: the inline body of `_thread_change`'s
3-parameter arm. `change.get("fullDocument", {})` wrapped in a
one-element list, the three-key metadata dict (the commented-out
`updateDescription` forwarding is dead code, so optional fields are
dropped), and `change.get("clusterTime", {})`. Subscripting
`change["documentKey"]`, `change["operationType"]` or `change["ns"]`
raises `KeyError` when the key is missing. -/
def normalizeEvent (change : RawEvent) : Except String (Value × Value × Value) :=
  let fullDocument := Value.list [(dGet change "fullDocument").getD (.dict [])]
  match dGet change "documentKey" with
  | none => .error "KeyError: documentKey"
  | some dk =>
    match dGet change "operationType" with
    | none => .error "KeyError: operationType"
    | some ot =>
      match dGet change "ns" with
      | none => .error "KeyError: ns"
      | some ns =>
        .ok (fullDocument,
          .dict [(.str "documentKey", dk), (.str "operationType", ot),
            (.str "ns", ns)],
          (dGet change "clusterTime").getD (.dict []))

/-- One invocation of the user callback: either the raw event
(1-parameter mode) or the normalized triple (3-parameter mode). -/
inductive CallbackCall where
  | raw (change : RawEvent)
  | normalized (fullDocument changes readTime : Value)

/-- The observable behavior of one `_thread_change` run: the events pulled
from the stream, the callback invocations made, and the exception that
ended the loop, if any. -/
structure DispatchTrace where
  pulled : List RawEvent
  calls : List CallbackCall
  thrown : Option String

/-- Embedding of `_thread_change` (textually identical in both versions of
the module) over a finite stream: `for change in change_stream` pulls one
event, then the `match` on `on_snapshot.__code__.co_argcount` selects the
dispatch mode; an arity that is neither 1 nor 3 raises only at that point,
after the first event has already been pulled. -/
def threadChange (argcount : Nat) : List RawEvent → DispatchTrace
  | [] => ⟨[], [], none⟩
  | change :: rest =>
    if argcount = 1 then
      let t := threadChange argcount rest
      ⟨change :: t.pulled, .raw change :: t.calls, t.thrown⟩
    else if argcount = 3 then
      match normalizeEvent change with
      | .ok (fd, cm, rt) =>
        let t := threadChange argcount rest
        ⟨change :: t.pulled, .normalized fd cm rt :: t.calls, t.thrown⟩
      | .error e => ⟨[change], [], some e⟩
    else ⟨[change], [], some "callback function must have 1 or 3 parameters"⟩

/-- Claim C4 evaluated against the code: with a callback of arity 2 (or 0)
the dispatcher raises nothing at all on a stream that never yields an
event, and on a nonempty stream it pulls the first event before raising
the invalid-callback error — the arity check sits inside the per-event
loop, contradicting the claimed fail-before-any-event behavior. -/
theorem arity_error_only_after_first_event :
    threadChange 2 [] = ⟨[], [], Option.none⟩ ∧
    threadChange 0 [] = ⟨[], [], Option.none⟩ ∧
    ∀ (change : RawEvent) (rest : List RawEvent),
      threadChange 2 (change :: rest)
        = ⟨[change], [], some "callback function must have 1 or 3 parameters"⟩ := by
  refine ⟨rfl, rfl, fun change rest => ?_⟩
  simp [threadChange]

/-- Claim C5: for every raw event carrying the three required keys, the
normalizer yields exactly the one-element `fullDocument` sequence
(defaulting to a wrapped empty mapping), the three-key metadata mapping
(dropping any other field of the event), and the `clusterTime` timestamp
defaulting to an empty mapping. -/
theorem normalize_event_shape
    (change : RawEvent) (dk ot ns : Value)
    (hdk : dGet change "documentKey" = some dk)
    (hot : dGet change "operationType" = some ot)
    (hns : dGet change "ns" = some ns) :
    normalizeEvent change = .ok
      (.list [(dGet change "fullDocument").getD (.dict [])],
       .dict [(.str "documentKey", dk), (.str "operationType", ot),
         (.str "ns", ns)],
       (dGet change "clusterTime").getD (.dict [])) := by
  simp [normalizeEvent, hdk, hot, hns]

/-- Witness for C5 at an update-shaped event carrying an
`updateDescription` field, which is dropped from the normalized
metadata. -/
theorem normalize_event_shape_witness :
    normalizeEvent
      [("fullDocument", .dict [(.str "x", .int 1)]),
       ("documentKey", .dict [(.str "_id", .int 7)]),
       ("operationType", .str "update"),
       ("ns", .dict [(.str "db", .str "d"), (.str "coll", .str "c")]),
       ("updateDescription", .dict [(.str "updatedFields", .dict [])]),
       ("clusterTime", .int 123)]
      = .ok
        (.list [.dict [(.str "x", .int 1)]],
         .dict [(.str "documentKey", .dict [(.str "_id", .int 7)]),
           (.str "operationType", .str "update"),
           (.str "ns", .dict [(.str "db", .str "d"), (.str "coll", .str "c")])],
         .int 123) :=
  normalize_event_shape _ _ _ _ rfl rfl rfl

/-! The query builder. `MongoCollection` owns the aggregation pipeline;
`where`/`order_by`/`limit` append one stage each. The two versions of the
module differ here: in the packaged `src/mongo.py` every builder method
ends in `return self`, while in the top-level legacy `mongo.py` only
`where` does — `order_by` and `limit` fall off the end and return `None`.
A method's Python return value is modelled by the second component:
`BuilderReturn.self` for `return self`, `BuilderReturn.none` for falling
off the end. The state mutation of `self.pipeline.append` is the first
component. -/

/-- What a builder method returns: the collection handle itself
(`return self`) or Python `None` (no return statement). -/
inductive BuilderReturn where
  | self
  | none

/-- The source line `args = args[0] if len(args) == 1 else args` of
`where`: a single positional argument is the expression itself; otherwise
the whole argument tuple is the expression. -/
def whereArg (args : List Value) : Value :=
  match args with
  | [x] => x
  | _ => .list args

namespace Mongo

/-- The packaged version's collection handle: its mutable aggregation
pipeline. -/
structure MongoCollection where
  pipeline : List Value

/-- `where(*args)`: a single argument is used as the expression itself,
several arguments form the expression tuple; the compiled filter is
appended as a `$match` stage and `self` is returned. An exception from
`parse` propagates before the append. -/
def MongoCollection.where_ (self : MongoCollection) (args : List Value) :
    Except String (MongoCollection × BuilderReturn) :=
  (parse (whereArg args)).map fun p =>
    ({ pipeline := self.pipeline ++ [.dict [(.str "$match", p)]] }, .self)

/-- `order_by(name, order=1)`: appends a `$sort` stage and returns
`self`. -/
def MongoCollection.order_by (self : MongoCollection) (name : String) (order : Int) :
    MongoCollection × BuilderReturn :=
  ({ pipeline := self.pipeline ++ [.dict [(.str "$sort", .dict [(.str name, .int order)])]] },
   .self)

/-- `limit(num)`: appends a `$limit` stage and returns `self`. -/
def MongoCollection.limit (self : MongoCollection) (num : Int) :
    MongoCollection × BuilderReturn :=
  ({ pipeline := self.pipeline ++ [.dict [(.str "$limit", .int num)]] }, .self)

/-- `aggregate()`: runs the driver aggregation with the accumulated
pipeline, then `_reset()` empties it. The driver call is external; the
pipeline it is invoked with is the observable first component. -/
def MongoCollection.aggregate (self : MongoCollection) :
    List Value × MongoCollection :=
  (self.pipeline, { pipeline := [] })

/-- `get()`: materializes `aggregate()` into a list. -/
def MongoCollection.get (self : MongoCollection) : List Value × MongoCollection :=
  self.aggregate

/-- A chain of `where` calls, each on the handle returned by the
previous one. -/
def MongoCollection.whereAll (self : MongoCollection) :
    List (List Value) → Except String MongoCollection
  | [] => .ok self
  | args :: rest => (self.where_ args).bind fun r => r.1.whereAll rest

end Mongo

namespace Legacy

/-- The top-level legacy version's collection handle. -/
structure MongoCollection where
  pipeline : List Value

/-- Legacy `where(*args)`: same behavior as the packaged version,
including `return self`. -/
def MongoCollection.where_ (self : MongoCollection) (args : List Value) :
    Except String (MongoCollection × BuilderReturn) :=
  (parse (whereArg args)).map fun p =>
    ({ pipeline := self.pipeline ++ [.dict [(.str "$match", p)]] }, .self)

/-- Legacy `order_by(name, order=1)`: appends the `$sort` stage but has no
return statement, so it returns `None`. -/
def MongoCollection.order_by (self : MongoCollection) (name : String) (order : Int) :
    MongoCollection × BuilderReturn :=
  ({ pipeline := self.pipeline ++ [.dict [(.str "$sort", .dict [(.str name, .int order)])]] },
   .none)

/-- Legacy `limit(num)`: appends the `$limit` stage but has no return
statement, so it returns `None`. -/
def MongoCollection.limit (self : MongoCollection) (num : Int) :
    MongoCollection × BuilderReturn :=
  ({ pipeline := self.pipeline ++ [.dict [(.str "$limit", .int num)]] }, .none)

/-- Legacy `get()`: runs the driver aggregation with the accumulated
pipeline, resets it, and materializes the result. -/
def MongoCollection.get (self : MongoCollection) : List Value × MongoCollection :=
  (self.pipeline, { pipeline := [] })

end Legacy

theorem whereAll_pipeline (argsL : List (List Value)) :
    ∀ (c c' : Mongo.MongoCollection), c.whereAll argsL = .ok c' →
      c'.pipeline.length = c.pipeline.length + argsL.length ∧
      ∀ s ∈ c'.pipeline, s ∈ c.pipeline ∨ ∃ q, s = Value.dict [(.str "$match", q)] := by
  induction argsL with
  | nil =>
    intro c c' h
    simp only [Mongo.MongoCollection.whereAll] at h
    injection h with h
    subst h
    exact ⟨by simp, fun s hs => Or.inl hs⟩
  | cons args rest ih =>
    intro c c' h
    simp only [Mongo.MongoCollection.whereAll] at h
    cases hw : c.where_ args with
    | error e => rw [hw] at h; simp [Except.bind] at h
    | ok r =>
      rw [hw] at h
      simp only [Except.bind] at h
      obtain ⟨p, hp, hr⟩ : ∃ p,
          r.1.pipeline = c.pipeline ++ [Value.dict [(.str "$match", p)]] ∧ r.2 = .self := by
        simp only [Mongo.MongoCollection.where_, Except.map] at hw
        cases hparse : parse (whereArg args) with
        | error e => rw [hparse] at hw; cases hw
        | ok p =>
          rw [hparse] at hw
          injection hw with hw
          exact ⟨p, by rw [← hw], by rw [← hw]⟩
      have hrest := ih r.1 c' h
      constructor
      · rw [hrest.1, hp]
        simp only [List.length_append, List.length_cons, List.length_nil]
        omega
      · intro s hs
        rcases hrest.2 s hs with hmem | hq
        · rw [hp] at hmem
          rcases List.mem_append.mp hmem with h1 | h2
          · exact Or.inl h1
          · exact Or.inr ⟨p, List.mem_singleton.mp h2⟩
        · exact Or.inr hq

/-- Claim C6: starting from an empty pipeline, `n` successful `where`
calls leave exactly `n` stages, all of them `$match` stages; `get` (which
is `aggregate`) executes the driver aggregation with exactly the
accumulated pipeline and resets it to empty, so a second immediate
execution runs with the empty pipeline. -/
theorem pipeline_accumulate_execute_reset :
    (∀ (argsL : List (List Value)) (c' : Mongo.MongoCollection),
      Mongo.MongoCollection.whereAll ⟨[]⟩ argsL = .ok c' →
        c'.pipeline.length = argsL.length ∧
        ∀ s ∈ c'.pipeline, ∃ q, s = Value.dict [(.str "$match", q)]) ∧
    (∀ c : Mongo.MongoCollection,
      c.get = (c.pipeline, ⟨[]⟩) ∧ c.aggregate = (c.pipeline, ⟨[]⟩)) ∧
    (∀ c : Mongo.MongoCollection, ((c.get).2.get).1 = []) := by
  refine ⟨fun argsL c' h => ?_, fun c => ⟨rfl, rfl⟩, fun c => rfl⟩
  have hall := whereAll_pipeline argsL ⟨[]⟩ c' h
  refine ⟨by simpa using hall.1, fun s hs => ?_⟩
  rcases hall.2 s hs with hmem | hq
  · simp at hmem
  · exact hq

/-- Witness for C6: two concrete `where` calls leave a two-stage
pipeline. -/
theorem pipeline_accumulate_execute_reset_witness :
    Mongo.MongoCollection.whereAll ⟨[]⟩
        [[.str "a", .str "==", .int 1], [.str "b", .str "<", .int 2]]
      = .ok ⟨[Value.dict [(.str "$match", .dict [(.str "a", .int 1)])],
              Value.dict [(.str "$match", .dict [(.str "b", .dict [(.str "$lt", .int 2)])])]]⟩ ∧
    (⟨[Value.dict [(.str "$match", .dict [(.str "a", .int 1)])],
       Value.dict [(.str "$match", .dict [(.str "b", .dict [(.str "$lt", .int 2)])])]]⟩ :
      Mongo.MongoCollection).pipeline.length = 2 := by
  have h : Mongo.MongoCollection.whereAll ⟨[]⟩
      [[.str "a", .str "==", .int 1], [.str "b", .str "<", .int 2]]
      = .ok ⟨[Value.dict [(.str "$match", .dict [(.str "a", .int 1)])],
              Value.dict [(.str "$match", .dict [(.str "b", .dict [(.str "$lt", .int 2)])])]]⟩ := by
    simp only [Mongo.MongoCollection.whereAll, Mongo.MongoCollection.where_, whereArg]
    simp only [parse]
    rw [parseCase2_ge3, parseCase3.eq_def, parseCase2_ge3, parseCase3.eq_def]
    simp [cmpTag, parse, mkDict1, hashable, Except.bind, Except.map]
  exact ⟨h, (pipeline_accumulate_execute_reset.1 _ _ h).1⟩

/-- Claim C9 counterexample: in the top-level legacy module, `order_by`
and `limit` have no return statement, so they return `None`, not the
collection handle — the chaining claim fails there. -/
theorem legacy_order_by_returns_none_counterexample :
    (Legacy.MongoCollection.order_by ⟨[]⟩ "name" 1).2 = BuilderReturn.none ∧
    (Legacy.MongoCollection.limit ⟨[]⟩ 5).2 = BuilderReturn.none ∧
    BuilderReturn.none ≠ BuilderReturn.self :=
  ⟨rfl, rfl, fun h => BuilderReturn.noConfusion h⟩

/-- Claim C9 as amended: in the packaged module `where`, `order_by` and
`limit` all return the handle they were called on; in the legacy module
only `where` does, while `order_by` and `limit` return `None`. -/
theorem builder_methods_return_handle :
    (∀ (c : Mongo.MongoCollection) (args : List Value)
        (r : Mongo.MongoCollection × BuilderReturn),
      c.where_ args = .ok r → r.2 = .self) ∧
    (∀ (c : Mongo.MongoCollection) (name : String) (order : Int),
      (c.order_by name order).2 = .self) ∧
    (∀ (c : Mongo.MongoCollection) (num : Int), (c.limit num).2 = .self) ∧
    (∀ (c : Legacy.MongoCollection) (args : List Value)
        (r : Legacy.MongoCollection × BuilderReturn),
      c.where_ args = .ok r → r.2 = .self) ∧
    (∀ (c : Legacy.MongoCollection) (name : String) (order : Int),
      (c.order_by name order).2 = BuilderReturn.none) ∧
    (∀ (c : Legacy.MongoCollection) (num : Int),
      (c.limit num).2 = BuilderReturn.none) := by
  refine ⟨fun c args r h => ?_, fun c name order => rfl, fun c num => rfl,
    fun c args r h => ?_, fun c name order => rfl, fun c num => rfl⟩
  · simp only [Mongo.MongoCollection.where_, Except.map] at h
    cases hparse : parse (whereArg args) with
    | error e => rw [hparse] at h; cases h
    | ok p => rw [hparse] at h; injection h with h; rw [← h]
  · simp only [Legacy.MongoCollection.where_, Except.map] at h
    cases hparse : parse (whereArg args) with
    | error e => rw [hparse] at h; cases h
    | ok p => rw [hparse] at h; injection h with h; rw [← h]

/-- Witness for the amended C9 at a concrete `where` call. -/
theorem builder_methods_return_handle_witness :
    Mongo.MongoCollection.where_ ⟨[]⟩ [.str "a", .str "==", .int 1]
      = .ok (⟨[Value.dict [(.str "$match", .dict [(.str "a", .int 1)])]]⟩, .self) ∧
    ((⟨[Value.dict [(.str "$match", .dict [(.str "a", .int 1)])]]⟩,
      BuilderReturn.self) : Mongo.MongoCollection × BuilderReturn).2 = .self := by
  have h : Mongo.MongoCollection.where_ ⟨[]⟩ [.str "a", .str "==", .int 1]
      = .ok (⟨[Value.dict [(.str "$match", .dict [(.str "a", .int 1)])]]⟩, .self) := by
    simp only [Mongo.MongoCollection.where_, whereArg]
    simp only [parse]
    rw [parseCase2_ge3, parseCase3.eq_def]
    simp [parse, mkDict1, hashable, Except.bind, Except.map]
  exact ⟨h, builder_methods_return_handle.1 _ _ _ h⟩

/-! The document reference. Both versions of the module behave
identically here: the packaged one routes `set`/`update`/`push` through
`_clean`, the legacy one inlines the same `data.pop("_id", None)`. Python
`pop` mutates the caller's dict in place and `_clean` returns that same
object, so each write method is modelled as producing the driver write
operation it issues together with the caller's mapping as it stands after
the call. -/

/-- Is an embedded dict key the string `_id`? -/
def isIdKey : Value → Bool
  | .str s => s == "_id"
  | _ => false

/-- A document reference: the document key within its collection (the
collection handle carries no state that matters here). -/
structure MongoReference where
  docId : Value

/-- `_docId()`: the key-based filter `{"_id": self.docId}` every write
targets. -/
def MongoReference._docId (self : MongoReference) : Value :=
  .dict [(.str "_id", self.docId)]

/-- `_clean(data)` (inlined as `data.pop("_id", None)` in the legacy
version): removes the `_id` binding from the caller's dict, in place, and
returns that same dict. -/
def MongoReference._clean (_ : MongoReference) (data : List (Value × Value)) :
    List (Value × Value) :=
  data.filter fun kv => !(isIdKey kv.1)

/-- A driver write operation as issued by a reference method: the filter
document, the payload, and the upsert flag. -/
inductive DriverWrite where
  | replaceOne (filter doc : Value) (upsert : Bool)
  | updateOne (filter updateDoc : Value) (upsert : Bool)

/-- `set(data)`: cleans the payload, then
`replace_one({"_id": docId}, data, upsert=True)`. The second component is
the caller's dict after the call. -/
def MongoReference.set (self : MongoReference) (data : List (Value × Value)) :
    DriverWrite × List (Value × Value) :=
  let d := self._clean data
  (.replaceOne self._docId (.dict d) true, d)

/-- `update(data)`: cleans the payload, then
`update_one({"_id": docId}, {"$set": data}, upsert=True)`. -/
def MongoReference.update (self : MongoReference) (data : List (Value × Value)) :
    DriverWrite × List (Value × Value) :=
  let d := self._clean data
  (.updateOne self._docId (.dict [(.str "$set", .dict d)]) true, d)

/-- `push(data)`: cleans the payload, then
`update_one({"_id": docId}, {"$push": data}, upsert=True)`. -/
def MongoReference.push (self : MongoReference) (data : List (Value × Value)) :
    DriverWrite × List (Value × Value) :=
  let d := self._clean data
  (.updateOne self._docId (.dict [(.str "$push", .dict d)]) true, d)

/-- Does a dict carry an `_id` binding? -/
def hasIdKey (d : List (Value × Value)) : Bool :=
  d.any fun kv => isIdKey kv.1

theorem hasIdKey_clean (r : MongoReference) (data : List (Value × Value)) :
    hasIdKey (r._clean data) = false := by
  simp only [hasIdKey, MongoReference._clean]
  induction data with
  | nil => rfl
  | cons kv rest ih =>
    rw [List.filter_cons]
    by_cases h : isIdKey kv.1
    · simp [h, ih]
    · simp only [h, Bool.not_false, if_true, List.any_cons, ih]
      simp [h]

/-- Claim C7: `set`, `update` and `push` all write a payload from which
any `_id` binding has been stripped, and each one's driver filter is
`{"_id": docId}` built from the reference's own key, no matter what the
payload carried. -/
theorem write_targets_reference_key
    (r : MongoReference) (data : List (Value × Value)) :
    ∃ d : List (Value × Value), hasIdKey d = false ∧
      r.set data = (.replaceOne (.dict [(.str "_id", r.docId)]) (.dict d) true, d) ∧
      r.update data
        = (.updateOne (.dict [(.str "_id", r.docId)]) (.dict [(.str "$set", .dict d)]) true, d) ∧
      r.push data
        = (.updateOne (.dict [(.str "_id", r.docId)]) (.dict [(.str "$push", .dict d)]) true, d) :=
  ⟨r._clean data, hasIdKey_clean r data, rfl, rfl, rfl⟩

/-- Claim C10: the `_id` binding is removed from the very mapping the
caller passed (Python `pop` mutates in place), so after `set`, `update` or
`push` the caller's mapping no longer contains `_id`; a mapping without
`_id` is left untouched. -/
theorem payload_id_stripped_in_place
    (r : MongoReference) (data : List (Value × Value)) :
    (r.set data).2 = r._clean data ∧
    (r.update data).2 = r._clean data ∧
    (r.push data).2 = r._clean data ∧
    hasIdKey (r.set data).2 = false ∧
    hasIdKey (r.update data).2 = false ∧
    hasIdKey (r.push data).2 = false ∧
    (hasIdKey data = false → (r.set data).2 = data) := by
  refine ⟨rfl, rfl, rfl, hasIdKey_clean r data, hasIdKey_clean r data,
    hasIdKey_clean r data, fun h => ?_⟩
  simp only [MongoReference.set, MongoReference._clean]
  rw [List.filter_eq_self.mpr]
  intro kv hkv
  simp only [hasIdKey, List.any_eq_false] at h
  simp [Bool.eq_false_iff.mpr (h kv hkv)]

/-- Witness for C10: a payload carrying `_id` loses exactly that binding,
and a payload without `_id` is returned unchanged. -/
theorem payload_id_stripped_in_place_witness :
    (MongoReference.set ⟨.int 9⟩ [(.str "_id", .int 1), (.str "x", .int 2)]).2
      = [(.str "x", .int 2)] ∧
    hasIdKey (MongoReference.set ⟨.int 9⟩ [(.str "_id", .int 1), (.str "x", .int 2)]).2
      = false ∧
    (MongoReference.set ⟨.int 9⟩ [(.str "x", .int 2)]).2 = [(.str "x", .int 2)] := by
  have h1 := payload_id_stripped_in_place ⟨.int 9⟩ [(.str "_id", .int 1), (.str "x", .int 2)]
  have h2 := payload_id_stripped_in_place ⟨.int 9⟩ [(.str "x", .int 2)]
  exact ⟨by rw [h1.1]; rfl, h1.2.2.2.1, h2.2.2.2.2.2.2 rfl⟩
